import Mathlib

/-!
Verification of the 2-D cross-correlation notebook: the function corr2d and
the configurable operator Conv (padding, stride, bias), embedded from
src/basic_conv_nets.ipynb. Floating point values are idealised as rationals.
Fallible torch operations are modelled with Option: torch.zeros raises on a
negative dimension, and a zero stride raises ZeroDivisionError in the output
shape computation; both paths return none.
-/

namespace D2L

/-- A dense rank-2 tensor: a height, a width, and an entry function. Entries
are rationals, the idealisation of the floating point entries of the source. -/
structure Tensor where
  rows : ℕ
  cols : ℕ
  data : ℕ → ℕ → ℚ

/-- Embeds torch.zeros: an all-zero tensor of the given shape. -/
def zerosT (m n : ℕ) : Tensor :=
  ⟨m, n, fun _ _ => 0⟩

/-- Embeds the in-place element assignment y[i, j] = v performed by the
source loops, as a functional update of the output tensor being built. -/
def writeT (t : Tensor) (i j : ℕ) (v : ℚ) : Tensor :=
  ⟨t.rows, t.cols, fun a b => if a = i ∧ b = j then v else t.data a b⟩

/-- The inner loop `for j in range(w)` of the source: assign y[i, j] = f i j
for j = 0 .. w - 1, in increasing order of j. -/
def rowLoop (f : ℕ → ℕ → ℚ) (i : ℕ) : ℕ → Tensor → Tensor
  | 0, t => t
  | w + 1, t => writeT (rowLoop f i w t) i w (f i w)

/-- The outer loop `for i in range(h)` of the source: run the inner loop over
w columns for i = 0 .. h - 1, in increasing order of i. -/
def fillLoop (f : ℕ → ℕ → ℚ) (w : ℕ) : ℕ → Tensor → Tensor
  | 0, t => t
  | h + 1, t => rowLoop f h w (fillLoop f w h t)

/-- Embeds F.pad(x, [p.2, p.2, p.1, p.1]): symmetric zero padding, p.1 rows
added on both the top and bottom of axis 0 and p.2 columns on both the left
and right of axis 1. -/
def fpad (x : Tensor) (p : ℕ × ℕ) : Tensor :=
  ⟨x.rows + 2 * p.1, x.cols + 2 * p.2, fun i j =>
    if p.1 ≤ i ∧ i < p.1 + x.rows ∧ p.2 ≤ j ∧ j < p.2 + x.cols then
      x.data (i - p.1) (j - p.2)
    else 0⟩

/-- Embeds corr2d(X, k) from the notebook: allocate
y = torch.zeros((X.rows - k.rows + 1, X.cols - k.cols + 1)) and fill
y[i, j] = (k * X[i : i + kh, j : j + kw]).sum() with a double loop.
torch.zeros raises on a negative requested dimension, modelled by none;
the Python expression X.shape[0] - h + 1 is integer arithmetic, modelled
on ℤ before the sign test. -/
def corr2d (X k : Tensor) : Option Tensor :=
  if (X.rows : ℤ) - k.rows + 1 < 0 ∨ (X.cols : ℤ) - k.cols + 1 < 0 then none
  else
    some (fillLoop
      (fun i j => ∑ a in Finset.range k.rows, ∑ b in Finset.range k.cols,
        k.data a b * X.data (i + a) (j + b))
      ((X.cols : ℤ) - k.cols + 1).toNat
      ((X.rows : ℤ) - k.rows + 1).toNat
      (zerosT ((X.rows : ℤ) - k.rows + 1).toNat ((X.cols : ℤ) - k.cols + 1).toNat))

/-- The Conv class of the notebook. Construction draws weights (and, when
enabled, a bias) from torch.rand; the drawn values are arbitrary, so they are
fields here. A disabled bias is the number 0 in the source, hence bias 0. -/
structure Conv where
  kernel_size : ℕ × ℕ
  weights : ℕ → ℕ → ℚ
  bias : ℚ
  pad : ℕ × ℕ
  stride : ℕ × ℕ

/-- Embeds Conv.__init__ called with only kernel_size and the modelled random
draws: the Python defaults bias=True, pad=[0, 0], stride=(0, 0) apply. -/
def convInitDefault (ks : ℕ × ℕ) (wv : ℕ → ℕ → ℚ) (bv : ℚ) : Conv :=
  ⟨ks, wv, bv, (0, 0), (0, 0)⟩

/-- Embeds Conv.__call__(x): pad x, compute
h = int((rows + stride.1 - kernel.1) / stride.1) and likewise w (Python
float division then int() truncates toward zero, which is Int.tdiv for exact
values), allocate res = torch.zeros((h, w)) and fill
res[i, j] = (x[i*s1 : i*s1 + kh, j*s2 : j*s2 + kw] * weights).sum() + bias.
A zero stride raises ZeroDivisionError and a negative h or w makes
torch.zeros raise, both modelled by none. -/
def Conv.call (c : Conv) (x : Tensor) : Option Tensor :=
  if c.stride.1 = 0 ∨ c.stride.2 = 0 then none
  else if Int.tdiv (((fpad x c.pad).rows : ℤ) + c.stride.1 - c.kernel_size.1) c.stride.1 < 0 ∨
      Int.tdiv (((fpad x c.pad).cols : ℤ) + c.stride.2 - c.kernel_size.2) c.stride.2 < 0 then
    none
  else
    some (fillLoop
      (fun i j =>
        (∑ a in Finset.range c.kernel_size.1, ∑ b in Finset.range c.kernel_size.2,
          (fpad x c.pad).data (i * c.stride.1 + a) (j * c.stride.2 + b) * c.weights a b)
        + c.bias)
      (Int.tdiv (((fpad x c.pad).cols : ℤ) + c.stride.2 - c.kernel_size.2) c.stride.2).toNat
      (Int.tdiv (((fpad x c.pad).rows : ℤ) + c.stride.1 - c.kernel_size.1) c.stride.1).toNat
      (zerosT
        (Int.tdiv (((fpad x c.pad).rows : ℤ) + c.stride.1 - c.kernel_size.1) c.stride.1).toNat
        (Int.tdiv (((fpad x c.pad).cols : ℤ) + c.stride.2 - c.kernel_size.2) c.stride.2).toNat))

/-- Modelled from the spec: the reference framework convolution operator
(nn.Conv2d with one input and one output channel), external to this
repository. Per the spec it is a standard convolution, i.e. a sliding-window
cross-correlation without kernel flip, over the symmetrically zero-padded
input, with per-axis stride, injected weights wv of shape kh by kw and a
scalar bias bv, and output shape
floor((H + 2*p.1 - kh) / s.1) + 1 by floor((W + 2*p.2 - kw) / s.2) + 1. -/
def refConvOp (kh kw : ℕ) (wv : ℕ → ℕ → ℚ) (bv : ℚ) (p s : ℕ × ℕ) (X : Tensor) : Tensor :=
  ⟨(X.rows + 2 * p.1 - kh) / s.1 + 1, (X.cols + 2 * p.2 - kw) / s.2 + 1, fun i j =>
    if i < (X.rows + 2 * p.1 - kh) / s.1 + 1 ∧ j < (X.cols + 2 * p.2 - kw) / s.2 + 1 then
      bv + ∑ a in Finset.range kh, ∑ b in Finset.range kw,
        wv a b * (fpad X p).data (i * s.1 + a) (j * s.2 + b)
    else 0⟩

/-! ### Heap embedding

The frame claims of the spec are about in-place mutation of torch tensors,
so the two routines are also embedded against an explicit heap of tensors:
torch tensors are heap cells, torch.zeros and F.pad allocate fresh cells,
and the element assignments of the loops write to a named cell. -/

/-- A heap of tensors: addresses below size are live. -/
structure Heap where
  size : ℕ
  mem : ℕ → Tensor

/-- Allocate a fresh cell holding t; returns the new heap and the address. -/
def Heap.alloc (σ : Heap) (t : Tensor) : Heap × ℕ :=
  (⟨σ.size + 1, fun a => if a = σ.size then t else σ.mem a⟩, σ.size)

/-- Overwrite the cell at address a with t. -/
def Heap.write (σ : Heap) (a : ℕ) (t : Tensor) : Heap :=
  ⟨σ.size, fun b => if b = a then t else σ.mem b⟩

/-- The inner loop of either routine against the heap: for j = 0 .. w - 1,
compute the entry value v from the current heap state and perform the
in-place assignment out[i, j] = v on the cell at address ya. -/
def hfillRow (v : Heap → ℕ → ℕ → ℚ) (ya i : ℕ) : ℕ → Heap → Heap
  | 0, σ => σ
  | w + 1, σ =>
    (hfillRow v ya i w σ).write ya
      (writeT ((hfillRow v ya i w σ).mem ya) i w (v (hfillRow v ya i w σ) i w))

/-- The outer loop of either routine against the heap. -/
def hfill (v : Heap → ℕ → ℕ → ℚ) (ya w : ℕ) : ℕ → Heap → Heap
  | 0, σ => σ
  | h + 1, σ => hfillRow v ya h w (hfill v ya w h σ)

/-- Heap embedding of corr2d(X, k): the input X lives at address xa and the
kernel k at ka; torch.zeros allocates the output cell and the double loop
assigns into it, reading X and k from the heap at every iteration. -/
def corr2dH (σ : Heap) (xa ka : ℕ) : Option (Heap × ℕ) :=
  if ((σ.mem xa).rows : ℤ) - (σ.mem ka).rows + 1 < 0 ∨
      ((σ.mem xa).cols : ℤ) - (σ.mem ka).cols + 1 < 0 then none
  else
    some (hfill
      (fun s i j => ∑ a in Finset.range (s.mem ka).rows, ∑ b in Finset.range (s.mem ka).cols,
        (s.mem ka).data a b * (s.mem xa).data (i + a) (j + b))
      σ.size
      (((σ.mem xa).cols : ℤ) - (σ.mem ka).cols + 1).toNat
      (((σ.mem xa).rows : ℤ) - (σ.mem ka).rows + 1).toNat
      (σ.alloc (zerosT (((σ.mem xa).rows : ℤ) - (σ.mem ka).rows + 1).toNat
        (((σ.mem xa).cols : ℤ) - (σ.mem ka).cols + 1).toNat)).1,
      σ.size)

/-- Heap embedding of Conv.__call__: the input lives at xa, the weights at
wa and the bias (a one-element tensor) at ba. F.pad allocates the padded
input at address σ.size, torch.zeros the output at σ.size + 1, and the loop
assigns into the output cell, reading the padded input, the weights and the
bias from the heap at every iteration. -/
def convCallH (σ : Heap) (ks : ℕ × ℕ) (wa ba xa : ℕ) (p st : ℕ × ℕ) : Option (Heap × ℕ) :=
  if st.1 = 0 ∨ st.2 = 0 then none
  else if Int.tdiv (((fpad (σ.mem xa) p).rows : ℤ) + st.1 - ks.1) st.1 < 0 ∨
      Int.tdiv (((fpad (σ.mem xa) p).cols : ℤ) + st.2 - ks.2) st.2 < 0 then none
  else
    some (hfill
      (fun s i j =>
        (∑ a in Finset.range ks.1, ∑ b in Finset.range ks.2,
          (s.mem σ.size).data (i * st.1 + a) (j * st.2 + b) * (s.mem wa).data a b)
        + (s.mem ba).data 0 0)
      (σ.size + 1)
      (Int.tdiv (((fpad (σ.mem xa) p).cols : ℤ) + st.2 - ks.2) st.2).toNat
      (Int.tdiv (((fpad (σ.mem xa) p).rows : ℤ) + st.1 - ks.1) st.1).toNat
      ((σ.alloc (fpad (σ.mem xa) p)).1.alloc
        (zerosT (Int.tdiv (((fpad (σ.mem xa) p).rows : ℤ) + st.1 - ks.1) st.1).toNat
          (Int.tdiv (((fpad (σ.mem xa) p).cols : ℤ) + st.2 - ks.2) st.2).toNat)).1,
      σ.size + 1)

/-! ### Concrete inputs used by the witness and counterexample theorems -/

/-- A concrete 2 by 2 input of ones. -/
def X3w : Tensor := ⟨2, 2, fun _ _ => 1⟩

/-- A concrete 1 by 1 kernel holding 2. -/
def K3w : Tensor := ⟨1, 1, fun _ _ => 2⟩

/-- A concrete Conv: 1 by 1 kernel of weight 2, bias 3, no padding, stride 1. -/
def c1w : Conv := ⟨(1, 1), fun _ _ => 2, 3, (0, 0), (1, 1)⟩

/-- A concrete 1 by 1 input holding 5. -/
def x1w : Tensor := ⟨1, 1, fun _ _ => 5⟩

/-- A concrete 8 by 8 input. -/
def x8w : Tensor := ⟨8, 8, fun _ _ => 0⟩

/-- A concrete 5 by 5 input. -/
def x5w : Tensor := ⟨5, 5, fun _ _ => 0⟩

/-- A concrete 23 by 23 input of ones. -/
def x23w : Tensor := ⟨23, 23, fun _ _ => 1⟩

/-- A concrete 1 by 1 kernel of ones. -/
def K23w : Tensor := ⟨1, 1, fun _ _ => 1⟩

/-- A Conv whose computed output height on x5e is exactly zero: kernel 2 by 2,
stride 1, no padding. -/
def c5w : Conv := ⟨(2, 2), fun _ _ => 1, 0, (0, 0), (1, 1)⟩

/-- A concrete 1 by 3 input: one row fewer than the kernel height of c5w. -/
def x5e : Tensor := ⟨1, 3, fun _ _ => 1⟩

/-- A concrete 2 by 2 input for the corr2d boundary case. -/
def X6e : Tensor := ⟨2, 2, fun _ _ => 1⟩

/-- A concrete 3 by 2 kernel: exactly one row taller than X6e. -/
def K6e : Tensor := ⟨3, 2, fun _ _ => 1⟩

/-- A concrete heap with two live cells: a 2 by 2 input at address 0 and a
1 by 1 kernel (also usable as weights or bias) at address 1. -/
def hp0 : Heap := ⟨2, fun a => if a = 0 then ⟨2, 2, fun _ _ => 1⟩ else ⟨1, 1, fun _ _ => 1⟩⟩

/-- The result of running the corr2d heap embedding on hp0 (the call
succeeds, so the default is never used). -/
def hr0 : Heap × ℕ := (corr2dH hp0 0 1).getD (hp0, 0)

/-- The result of running the Conv heap embedding on hp0 with a 1 by 1
kernel read from address 1 (the call succeeds). -/
def hc0 : Heap × ℕ := (convCallH hp0 (1, 1) 1 1 0 (0, 0) (1, 1)).getD (hp0, 0)

/-! ### Loop characterisation -/

theorem tensor_eq (t u : Tensor) (hr : t.rows = u.rows) (hc : t.cols = u.cols)
    (hd : ∀ i j, t.data i j = u.data i j) : t = u := by
  cases t
  cases u
  simp only [Tensor.mk.injEq]
  exact ⟨hr, hc, funext fun i => funext fun j => hd i j⟩

theorem rowLoop_rows (f : ℕ → ℕ → ℚ) (i : ℕ) :
    ∀ (w : ℕ) (t : Tensor), (rowLoop f i w t).rows = t.rows := by
  intro w
  induction w with
  | zero => intro t; rfl
  | succ n ih => intro t; exact ih t

theorem rowLoop_cols (f : ℕ → ℕ → ℚ) (i : ℕ) :
    ∀ (w : ℕ) (t : Tensor), (rowLoop f i w t).cols = t.cols := by
  intro w
  induction w with
  | zero => intro t; rfl
  | succ n ih => intro t; exact ih t

theorem rowLoop_data (f : ℕ → ℕ → ℚ) (i : ℕ) :
    ∀ (w : ℕ) (t : Tensor) (a b : ℕ),
      (rowLoop f i w t).data a b = if a = i ∧ b < w then f i b else t.data a b := by
  intro w
  induction w with
  | zero => intro t a b; simp [rowLoop]
  | succ n ih =>
    intro t a b
    show (writeT (rowLoop f i n t) i n (f i n)).data a b = _
    simp only [writeT]
    rw [ih]
    by_cases h1 : a = i
    · subst h1
      by_cases h2 : b = n
      · subst h2
        simp [Nat.lt_succ_self]
      · have h3 : (b < n + 1) ↔ b < n := by omega
        simp [h2, h3]
    · simp [h1]

theorem fillLoop_rows (f : ℕ → ℕ → ℚ) (w : ℕ) :
    ∀ (h : ℕ) (t : Tensor), (fillLoop f w h t).rows = t.rows := by
  intro h
  induction h with
  | zero => intro t; rfl
  | succ n ih =>
    intro t
    show (rowLoop f n w (fillLoop f w n t)).rows = t.rows
    rw [rowLoop_rows, ih]

theorem fillLoop_cols (f : ℕ → ℕ → ℚ) (w : ℕ) :
    ∀ (h : ℕ) (t : Tensor), (fillLoop f w h t).cols = t.cols := by
  intro h
  induction h with
  | zero => intro t; rfl
  | succ n ih =>
    intro t
    show (rowLoop f n w (fillLoop f w n t)).cols = t.cols
    rw [rowLoop_cols, ih]

theorem fillLoop_data (f : ℕ → ℕ → ℚ) (w : ℕ) :
    ∀ (h : ℕ) (t : Tensor) (i j : ℕ),
      (fillLoop f w h t).data i j = if i < h ∧ j < w then f i j else t.data i j := by
  intro h
  induction h with
  | zero => intro t i j; simp [fillLoop]
  | succ n ih =>
    intro t i j
    show (rowLoop f n w (fillLoop f w n t)).data i j = _
    rw [rowLoop_data, ih]
    by_cases h1 : i = n
    · subst h1
      by_cases h2 : j < w
      · simp [h2, Nat.lt_succ_self]
      · simp [h2]
    · have h3 : (i < n + 1) ↔ i < n := by omega
      simp [h1, h3]

/-! ### Output shape arithmetic -/

theorem tdiv_shape (H k s : ℕ) (hs : 1 ≤ s) (hk : k ≤ H) :
    Int.tdiv ((H : ℤ) + s - k) s = ((H - k) / s + 1 : ℕ) := by
  have h1 : ((H : ℤ) + s - k) = ((H - k + s : ℕ) : ℤ) := by
    push_cast [Nat.cast_sub hk]
    ring
  rw [h1]
  have h2 : Int.tdiv ((H - k + s : ℕ) : ℤ) (s : ℤ) = (((H - k + s) / s : ℕ) : ℤ) := rfl
  rw [h2, Nat.add_div_right _ hs]

/-! ### Characterisation of corr2d and Conv.call -/

theorem corr2d_char (X k : Tensor) (hk1 : k.rows ≤ X.rows) (hk2 : k.cols ≤ X.cols) :
    corr2d X k = some
      ⟨X.rows - k.rows + 1, X.cols - k.cols + 1, fun i j =>
        if i < X.rows - k.rows + 1 ∧ j < X.cols - k.cols + 1 then
          ∑ a in Finset.range k.rows, ∑ b in Finset.range k.cols,
            k.data a b * X.data (i + a) (j + b)
        else 0⟩ := by
  have e1 : ((X.rows : ℤ) - k.rows + 1).toNat = X.rows - k.rows + 1 := by omega
  have e2 : ((X.cols : ℤ) - k.cols + 1).toNat = X.cols - k.cols + 1 := by omega
  unfold corr2d
  rw [if_neg (by omega)]
  refine congrArg some (tensor_eq _ _ ?_ ?_ ?_)
  · rw [fillLoop_rows]
    simp [zerosT, e1]
  · rw [fillLoop_cols]
    simp [zerosT, e2]
  · intro i j
    rw [fillLoop_data, e1, e2]
    simp [zerosT]

theorem conv_call_char (c : Conv) (x : Tensor)
    (h1 : 1 ≤ c.stride.1) (h2 : 1 ≤ c.stride.2)
    (hk1 : c.kernel_size.1 ≤ x.rows + 2 * c.pad.1)
    (hk2 : c.kernel_size.2 ≤ x.cols + 2 * c.pad.2) :
    Conv.call c x = some
      ⟨(x.rows + 2 * c.pad.1 - c.kernel_size.1) / c.stride.1 + 1,
        (x.cols + 2 * c.pad.2 - c.kernel_size.2) / c.stride.2 + 1, fun i j =>
        if i < (x.rows + 2 * c.pad.1 - c.kernel_size.1) / c.stride.1 + 1 ∧
            j < (x.cols + 2 * c.pad.2 - c.kernel_size.2) / c.stride.2 + 1 then
          (∑ a in Finset.range c.kernel_size.1, ∑ b in Finset.range c.kernel_size.2,
            (fpad x c.pad).data (i * c.stride.1 + a) (j * c.stride.2 + b) * c.weights a b)
          + c.bias
        else 0⟩ := by
  have er : (fpad x c.pad).rows = x.rows + 2 * c.pad.1 := rfl
  have ec : (fpad x c.pad).cols = x.cols + 2 * c.pad.2 := rfl
  have e1 : Int.tdiv (((fpad x c.pad).rows : ℤ) + c.stride.1 - c.kernel_size.1) c.stride.1 =
      ((x.rows + 2 * c.pad.1 - c.kernel_size.1) / c.stride.1 + 1 : ℕ) := by
    rw [er]
    exact tdiv_shape _ _ _ h1 hk1
  have e2 : Int.tdiv (((fpad x c.pad).cols : ℤ) + c.stride.2 - c.kernel_size.2) c.stride.2 =
      ((x.cols + 2 * c.pad.2 - c.kernel_size.2) / c.stride.2 + 1 : ℕ) := by
    rw [ec]
    exact tdiv_shape _ _ _ h2 hk2
  unfold Conv.call
  rw [if_neg (by omega), e1, e2,
    if_neg (by push_neg; exact ⟨Int.natCast_nonneg _, Int.natCast_nonneg _⟩)]
  refine congrArg some (tensor_eq _ _ ?_ ?_ ?_)
  · rw [fillLoop_rows]
    simp only [zerosT, Int.toNat_natCast]
  · rw [fillLoop_cols]
    simp only [zerosT, Int.toNat_natCast]
  · intro i j
    rw [fillLoop_data]
    simp only [zerosT, Int.toNat_natCast]

/-- Reading the padded tensor inside the original region returns the
corresponding input entry. -/
theorem fpad_data_in (x : Tensor) (p : ℕ × ℕ) (u v : ℕ)
    (h : p.1 ≤ u ∧ u < p.1 + x.rows ∧ p.2 ≤ v ∧ v < p.2 + x.cols) :
    (fpad x p).data u v = x.data (u - p.1) (v - p.2) :=
  if_pos h

/-- A successful Conv.call yields exactly the tensor described by the
spec-modelled reference operator with the same weights, bias, padding and
stride. -/
theorem conv_call_eq_ref (c : Conv) (x : Tensor)
    (h1 : 1 ≤ c.stride.1) (h2 : 1 ≤ c.stride.2)
    (hk1 : c.kernel_size.1 ≤ x.rows + 2 * c.pad.1)
    (hk2 : c.kernel_size.2 ≤ x.cols + 2 * c.pad.2) :
    Conv.call c x =
      some (refConvOp c.kernel_size.1 c.kernel_size.2 c.weights c.bias c.pad c.stride x) := by
  rw [conv_call_char c x h1 h2 hk1 hk2]
  refine congrArg some (tensor_eq _ _ rfl rfl ?_)
  intro i j
  show (if _ ∧ _ then _ else 0) = (if _ ∧ _ then _ else 0)
  by_cases hij : i < (x.rows + 2 * c.pad.1 - c.kernel_size.1) / c.stride.1 + 1 ∧
      j < (x.cols + 2 * c.pad.2 - c.kernel_size.2) / c.stride.2 + 1
  · rw [if_pos hij, if_pos hij, add_comm]
    congr 1
    exact Finset.sum_congr rfl fun a _ => Finset.sum_congr rfl fun b _ => mul_comm _ _
  · rw [if_neg hij, if_neg hij]

/-- A Conv with no padding, stride one, weights K and bias 0 computes exactly
corr2d. -/
theorem conv0_eq_corr2d (X K : Tensor) (hk1 : K.rows ≤ X.rows) (hk2 : K.cols ≤ X.cols) :
    Conv.call ⟨(K.rows, K.cols), K.data, 0, (0, 0), (1, 1)⟩ X = corr2d X K := by
  rw [conv_call_char _ _ (le_refl 1) (le_refl 1) (by simpa using hk1) (by simpa using hk2),
    corr2d_char X K hk1 hk2]
  refine congrArg some (tensor_eq _ _ (by simp) (by simp) ?_)
  intro i j
  have hr : (X.rows + 2 * 0 - K.rows) / 1 + 1 = X.rows - K.rows + 1 := by simp
  have hc : (X.cols + 2 * 0 - K.cols) / 1 + 1 = X.cols - K.cols + 1 := by simp
  show (if i < (X.rows + 2 * 0 - K.rows) / 1 + 1 ∧ j < (X.cols + 2 * 0 - K.cols) / 1 + 1 then
      _ else 0) = (if i < X.rows - K.rows + 1 ∧ j < X.cols - K.cols + 1 then _ else 0)
  rw [hr, hc]
  by_cases hij : i < X.rows - K.rows + 1 ∧ j < X.cols - K.cols + 1
  · rw [if_pos hij, if_pos hij, add_zero]
    refine Finset.sum_congr rfl fun a ha => Finset.sum_congr rfl fun b hb => ?_
    rw [Finset.mem_range] at ha hb
    obtain ⟨hi, hj⟩ := hij
    have e1 : i + a < X.rows := by omega
    have e2 : j + b < X.cols := by omega
    simp [fpad, e1, e2, mul_comm]
  · rw [if_neg hij, if_neg hij]

/-! ### Frame lemmas for the heap embedding -/

theorem alloc_mem (σ : Heap) (t : Tensor) (b : ℕ) (hb : b ≠ σ.size) :
    (σ.alloc t).1.mem b = σ.mem b := by
  show (if b = σ.size then t else σ.mem b) = σ.mem b
  exact if_neg hb

theorem hfillRow_mem (v : Heap → ℕ → ℕ → ℚ) (ya i : ℕ) :
    ∀ (w : ℕ) (σ : Heap) (b : ℕ), b ≠ ya → (hfillRow v ya i w σ).mem b = σ.mem b := by
  intro w
  induction w with
  | zero => intro σ b _; rfl
  | succ n ih =>
    intro σ b hb
    show (Heap.write _ ya _).mem b = σ.mem b
    show (if b = ya then _ else (hfillRow v ya i n σ).mem b) = σ.mem b
    rw [if_neg hb]
    exact ih σ b hb

theorem hfill_mem (v : Heap → ℕ → ℕ → ℚ) (ya w : ℕ) :
    ∀ (h : ℕ) (σ : Heap) (b : ℕ), b ≠ ya → (hfill v ya w h σ).mem b = σ.mem b := by
  intro h
  induction h with
  | zero => intro σ b _; rfl
  | succ n ih =>
    intro σ b hb
    show (hfillRow v ya n w (hfill v ya w n σ)).mem b = σ.mem b
    rw [hfillRow_mem v ya n w _ b hb]
    exact ih σ b hb

/-- Frame property of the heap embedding of corr2d: the output address is
fresh and no live cell (in particular neither input) is changed. -/
theorem corr2dH_frame (σ : Heap) (xa ka : ℕ) (σr : Heap) (ya : ℕ)
    (hcall : corr2dH σ xa ka = some (σr, ya)) :
    ya = σ.size ∧ ∀ a, a < σ.size → σr.mem a = σ.mem a := by
  unfold corr2dH at hcall
  split_ifs at hcall
  injection hcall with h
  injection h with ha hb
  subst ha
  subst hb
  refine ⟨rfl, ?_⟩
  intro a haa
  rw [hfill_mem _ _ _ _ _ a (by omega)]
  exact alloc_mem σ _ a (by omega)

/-- Frame property of the heap embedding of Conv.__call__: the output address
is fresh and no live cell (the input, the weights, the bias) is changed. -/
theorem convCallH_frame (σ : Heap) (ks : ℕ × ℕ) (wa ba xa : ℕ) (p st : ℕ × ℕ)
    (σr : Heap) (ya : ℕ) (hcall : convCallH σ ks wa ba xa p st = some (σr, ya)) :
    σ.size ≤ ya ∧ ∀ a, a < σ.size → σr.mem a = σ.mem a := by
  unfold convCallH at hcall
  split_ifs at hcall
  injection hcall with h
  injection h with ha hb
  subst ha
  subst hb
  refine ⟨by omega, ?_⟩
  intro a haa
  rw [hfill_mem _ _ _ _ _ a (by omega)]
  rw [alloc_mem (σ.alloc (fpad (σ.mem xa) p)).1 _ a (by show a ≠ σ.size + 1; omega)]
  exact alloc_mem σ _ a (by omega)

/-! ### Claims -/

/-- C1: for every invocation of Conv on a 2-D input x that returns an output
y, the input is first zero-padded symmetrically, pad.1 rows on both the top
and bottom of axis 0 and pad.2 columns on both the left and right of axis 1,
and every output entry y[i, j] is the sum of the element-wise product of the
weights with the window of the padded input starting at
(i*stride.1, j*stride.2) of kernel size, plus the bias (0 when disabled). -/
theorem claim_C1 (c : Conv) (x y : Tensor) (hcall : Conv.call c x = some y) :
    ∀ i j, i < y.rows → j < y.cols →
      y.data i j =
        (∑ a in Finset.range c.kernel_size.1, ∑ b in Finset.range c.kernel_size.2,
          c.weights a b *
            (if c.pad.1 ≤ i * c.stride.1 + a ∧ i * c.stride.1 + a < c.pad.1 + x.rows ∧
                c.pad.2 ≤ j * c.stride.2 + b ∧ j * c.stride.2 + b < c.pad.2 + x.cols then
              x.data (i * c.stride.1 + a - c.pad.1) (j * c.stride.2 + b - c.pad.2)
            else 0)) + c.bias := by
  unfold Conv.call at hcall
  split_ifs at hcall
  injection hcall with hy
  subst hy
  intro i j hi hj
  rw [fillLoop_rows] at hi
  rw [fillLoop_cols] at hj
  rw [fillLoop_data, if_pos ⟨hi, hj⟩]
  congr 1
  refine Finset.sum_congr rfl fun a _ => Finset.sum_congr rfl fun b _ => ?_
  rw [mul_comm]
  rfl

/-- C2: under the preconditions (both strides at least 1, positive output
dimensions, i.e. kernel at most the padded input), the output of Conv has
exactly floor((H + 2*ph - kh)/sh) + 1 rows and floor((W + 2*pw - kw)/sw) + 1
columns; in particular pad (1,1), stride (1,1), 3x3 kernel on an 8x8 input
gives an 8x8 output, and pad (0,0), kernel (2,2), stride (3,2) on a 5x5
input gives a 2x2 output. -/
theorem claim_C2 :
    (∀ (c : Conv) (x : Tensor),
      1 ≤ c.stride.1 → 1 ≤ c.stride.2 →
      c.kernel_size.1 ≤ x.rows + 2 * c.pad.1 →
      c.kernel_size.2 ≤ x.cols + 2 * c.pad.2 →
      ((Conv.call c x).map fun t => (t.rows, t.cols)) =
        some ((x.rows + 2 * c.pad.1 - c.kernel_size.1) / c.stride.1 + 1,
          (x.cols + 2 * c.pad.2 - c.kernel_size.2) / c.stride.2 + 1)) ∧
    (∀ (x : Tensor) (wv : ℕ → ℕ → ℚ) (bv : ℚ), x.rows = 8 → x.cols = 8 →
      ((Conv.call ⟨(3, 3), wv, bv, (1, 1), (1, 1)⟩ x).map fun t => (t.rows, t.cols)) =
        some (8, 8)) ∧
    (∀ (x : Tensor) (wv : ℕ → ℕ → ℚ) (bv : ℚ), x.rows = 5 → x.cols = 5 →
      ((Conv.call ⟨(2, 2), wv, bv, (0, 0), (3, 2)⟩ x).map fun t => (t.rows, t.cols)) =
        some (2, 2)) := by
  have base : ∀ (c : Conv) (x : Tensor),
      1 ≤ c.stride.1 → 1 ≤ c.stride.2 →
      c.kernel_size.1 ≤ x.rows + 2 * c.pad.1 →
      c.kernel_size.2 ≤ x.cols + 2 * c.pad.2 →
      ((Conv.call c x).map fun t => (t.rows, t.cols)) =
        some ((x.rows + 2 * c.pad.1 - c.kernel_size.1) / c.stride.1 + 1,
          (x.cols + 2 * c.pad.2 - c.kernel_size.2) / c.stride.2 + 1) := by
    intro c x h1 h2 hk1 hk2
    rw [conv_call_char c x h1 h2 hk1 hk2]
    rfl
  refine ⟨base, ?_, ?_⟩
  · intro x wv bv hr hc
    rw [base ⟨(3, 3), wv, bv, (1, 1), (1, 1)⟩ x (le_refl 1) (le_refl 1)
      (by simp [hr]) (by simp [hc])]
    simp [hr, hc]
  · intro x wv bv hr hc
    rw [base ⟨(2, 2), wv, bv, (0, 0), (3, 2)⟩ x (by show (1:ℕ) ≤ 3; omega)
      (by show (1:ℕ) ≤ 2; omega) (by simp [hr]) (by simp [hc])]
    simp [hr, hc]

/-- C3: for every input X and kernel K with kernel dimensions at most the
input dimensions, corr2d(X, K) has shape (H - kh + 1, W - kw + 1) and its
entry at (i, j) is the sum over (a, b) of K[a, b] * X[i + a, j + b]. -/
theorem claim_C3 (X K : Tensor) (hk1 : K.rows ≤ X.rows) (hk2 : K.cols ≤ X.cols) :
    ((corr2d X K).map fun t => (t.rows, t.cols)) =
      some (X.rows - K.rows + 1, X.cols - K.cols + 1) ∧
    ∀ y, corr2d X K = some y → ∀ i j, i < y.rows → j < y.cols →
      y.data i j = ∑ a in Finset.range K.rows, ∑ b in Finset.range K.cols,
        K.data a b * X.data (i + a) (j + b) := by
  rw [corr2d_char X K hk1 hk2]
  refine ⟨rfl, ?_⟩
  intro y hy i j hi hj
  injection hy with hy
  subst hy
  exact if_pos ⟨hi, hj⟩

/-- C7: Conv is corr2d wrapped with padding, stride and bias: with pad (0,0),
stride (1,1), weights K and bias 0, Conv.call returns exactly the tensor
corr2d returns. -/
theorem claim_C7 (X K : Tensor) (hk1 : K.rows ≤ X.rows) (hk2 : K.cols ≤ X.cols) :
    Conv.call ⟨(K.rows, K.cols), K.data, 0, (0, 0), (1, 1)⟩ X = corr2d X K :=
  conv0_eq_corr2d X K hk1 hk2

/-- C9: both routines are deterministic at call time: the result is a
function of the input tensors and, for Conv, of the stored parameters alone,
so two invocations with equal inputs and equal parameters return equal
outputs. -/
theorem claim_C9 :
    (∀ X1 X2 K1 K2 : Tensor, X1 = X2 → K1 = K2 → corr2d X1 K1 = corr2d X2 K2) ∧
    (∀ c1 c2 : Conv, ∀ x1 x2 : Tensor,
      c1.kernel_size = c2.kernel_size → c1.weights = c2.weights → c1.bias = c2.bias →
      c1.pad = c2.pad → c1.stride = c2.stride → x1 = x2 →
      Conv.call c1 x1 = Conv.call c2 x2) := by
  constructor
  · intro X1 X2 K1 K2 h1 h2
    rw [h1, h2]
  · intro c1 c2 x1 x2 h1 h2 h3 h4 h5 h6
    cases c1
    cases c2
    dsimp only at h1 h2 h3 h4 h5
    subst h1 h2 h3 h4 h5 h6
    rfl

/-- C10: a Conv constructed without an explicit stride argument has stride
(0, 0), and every call of it hits the division by zero in the output shape
computation and fails, returning no output tensor. -/
theorem claim_C10 (ks : ℕ × ℕ) (wv : ℕ → ℕ → ℚ) (bv : ℚ) (x : Tensor) :
    (convInitDefault ks wv bv).stride = (0, 0) ∧
    Conv.call (convInitDefault ks wv bv) x = none := by
  refine ⟨rfl, ?_⟩
  show Conv.call ⟨ks, wv, bv, (0, 0), (0, 0)⟩ x = none
  unfold Conv.call
  rw [if_pos (Or.inl rfl)]

/-- C4: corr2d agrees, within 1e-5 per element, with the spec-modelled
reference convolution operator carrying the same kernel and zero bias (the
difference is exactly zero in exact arithmetic), and over the exhaustive
sweep of kernel sizes, paddings and strides on a 23x23 input, Conv agrees
with the reference operator within 1e-6 per element when the same weights
and bias are injected into both. -/
theorem claim_C4 :
    (∀ X K : Tensor, K.rows ≤ X.rows → K.cols ≤ X.cols →
      (corr2d X K).isSome = true ∧
      ∀ y, corr2d X K = some y →
        y.rows = (refConvOp K.rows K.cols K.data 0 (0, 0) (1, 1) X).rows ∧
        y.cols = (refConvOp K.rows K.cols K.data 0 (0, 0) (1, 1) X).cols ∧
        ∀ i j, |y.data i j - (refConvOp K.rows K.cols K.data 0 (0, 0) (1, 1) X).data i j|
          ≤ 1 / 100000) ∧
    (∀ x : Tensor, x.rows = 23 → x.cols = 23 →
      ∀ ks p s : ℕ × ℕ,
        ks ∈ [((5 : ℕ), (3 : ℕ)), (7, 3), (9, 7), (3, 11)] →
        p ∈ [((2 : ℕ), (1 : ℕ)), (2, 2), (3, 5), (9, 13)] →
        s ∈ [((1 : ℕ), (3 : ℕ)), (3, 5), (7, 3)] →
        ∀ (wv : ℕ → ℕ → ℚ) (bv : ℚ),
          (Conv.call ⟨ks, wv, bv, p, s⟩ x).isSome = true ∧
          ∀ y, Conv.call ⟨ks, wv, bv, p, s⟩ x = some y →
            y.rows = (refConvOp ks.1 ks.2 wv bv p s x).rows ∧
            y.cols = (refConvOp ks.1 ks.2 wv bv p s x).cols ∧
            ∀ i j, |y.data i j - (refConvOp ks.1 ks.2 wv bv p s x).data i j|
              ≤ 1 / 1000000) := by
  constructor
  · intro X K hk1 hk2
    have h1 := conv0_eq_corr2d X K hk1 hk2
    have h2 : corr2d X K = some (refConvOp K.rows K.cols K.data 0 (0, 0) (1, 1) X) := by
      rw [← h1]
      exact conv_call_eq_ref ⟨(K.rows, K.cols), K.data, 0, (0, 0), (1, 1)⟩ X
        (le_refl 1) (le_refl 1) (by simpa using hk1) (by simpa using hk2)
    rw [h2]
    refine ⟨rfl, ?_⟩
    intro y hy
    injection hy with hy
    subst hy
    refine ⟨rfl, rfl, ?_⟩
    intro i j
    rw [sub_self, abs_zero]
    norm_num
  · intro x hr hc ks p s hks hp hs wv bv
    simp only [List.mem_cons, List.not_mem_nil, or_false] at hks hp hs
    have hkb : ks.1 ≤ 11 ∧ ks.2 ≤ 11 := by
      rcases hks with rfl | rfl | rfl | rfl <;> exact (by decide)
    have hsb : 1 ≤ s.1 ∧ 1 ≤ s.2 := by
      rcases hs with rfl | rfl | rfl <;> exact (by decide)
    have hcall : Conv.call ⟨ks, wv, bv, p, s⟩ x =
        some (refConvOp ks.1 ks.2 wv bv p s x) :=
      conv_call_eq_ref ⟨ks, wv, bv, p, s⟩ x hsb.1 hsb.2 (by dsimp only; omega)
        (by dsimp only; omega)
    rw [hcall]
    refine ⟨rfl, ?_⟩
    intro y hy
    injection hy with hy
    subst hy
    refine ⟨rfl, rfl, ?_⟩
    intro i j
    rw [sub_self, abs_zero]
    norm_num

/-- C5 counterexample: on a 1 by 3 input with a 2 by 2 kernel, no padding
and stride (1, 1), the computed output height is 0, which is non-positive,
yet the call does not signal an error: it returns a tensor (with zero
rows). -/
theorem claim_C5_cex :
    (Conv.call c5w x5e).isSome = true ∧ (Conv.call c5w x5e).map Tensor.rows = some 0 := by
  exact ⟨rfl, rfl⟩

/-- C5 (amended): a Conv call signals an error exactly when a stride
component is 0 (division by zero) or a computed output dimension is negative
(torch.zeros rejects it); when the computed dimensions are non-negative the
call returns a tensor with exactly those dimensions, so a computed dimension
of exactly 0 yields an empty output tensor rather than an error. -/
theorem claim_C5_amended (c : Conv) (x : Tensor) :
    (Conv.call c x = none ↔
      c.stride.1 = 0 ∨ c.stride.2 = 0 ∨
      Int.tdiv (((fpad x c.pad).rows : ℤ) + c.stride.1 - c.kernel_size.1) c.stride.1 < 0 ∨
      Int.tdiv (((fpad x c.pad).cols : ℤ) + c.stride.2 - c.kernel_size.2) c.stride.2 < 0) ∧
    (∀ y, Conv.call c x = some y →
      y.rows =
        (Int.tdiv (((fpad x c.pad).rows : ℤ) + c.stride.1 - c.kernel_size.1) c.stride.1).toNat ∧
      y.cols =
        (Int.tdiv (((fpad x c.pad).cols : ℤ) + c.stride.2 - c.kernel_size.2) c.stride.2).toNat) := by
  unfold Conv.call
  split_ifs with h1 h2
  · refine ⟨iff_of_true rfl (by tauto), ?_⟩
    intro y hy
    exact hy.elim
  · refine ⟨iff_of_true rfl (by tauto), ?_⟩
    intro y hy
    exact hy.elim
  · refine ⟨iff_of_false (fun h => h.elim) (by tauto), ?_⟩
    intro y hy
    injection hy with hy
    subst hy
    exact ⟨by rw [fillLoop_rows]; rfl, by rw [fillLoop_cols]; rfl⟩

/-- C6 counterexample: a 3 by 2 kernel on a 2 by 2 input has kh > H, yet
corr2d does not signal an error: it returns an empty, zero-row tensor. -/
theorem claim_C6_cex :
    (corr2d X6e K6e).isSome = true ∧ (corr2d X6e K6e).map Tensor.rows = some 0 := by
  exact ⟨rfl, rfl⟩

/-- C6 (amended): corr2d signals an error exactly when a requested output
dimension is negative, i.e. kh > H + 1 or kw > W + 1; when kh = H + 1 or
kw = W + 1 it instead returns an empty tensor with a zero-sized dimension
(in general the returned shape is the clamped (H - kh + 1, W - kw + 1)). -/
theorem claim_C6_amended (X K : Tensor) :
    (corr2d X K = none ↔ X.rows + 1 < K.rows ∨ X.cols + 1 < K.cols) ∧
    (∀ y, corr2d X K = some y →
      y.rows = ((X.rows : ℤ) - K.rows + 1).toNat ∧
      y.cols = ((X.cols : ℤ) - K.cols + 1).toNat) := by
  unfold corr2d
  split_ifs with hg
  · refine ⟨iff_of_true rfl (by omega), ?_⟩
    intro y hy
    exact hy.elim
  · refine ⟨iff_of_false (fun h => h.elim) (by omega), ?_⟩
    intro y hy
    injection hy with hy
    subst hy
    exact ⟨by rw [fillLoop_rows]; rfl, by rw [fillLoop_cols]; rfl⟩

/-- C8: in the heap embedding, a returning invocation of corr2d or of
Conv.__call__ leaves every live cell unchanged (so neither the input tensor
nor the stored weights or bias are mutated) and returns a freshly allocated
output tensor at an address that was not live before the call. -/
theorem claim_C8 :
    (∀ (σ : Heap) (xa ka : ℕ) (σr : Heap) (ya : ℕ), corr2dH σ xa ka = some (σr, ya) →
      σ.size ≤ ya ∧ ∀ a, a < σ.size → σr.mem a = σ.mem a) ∧
    (∀ (σ : Heap) (ks : ℕ × ℕ) (wa ba xa : ℕ) (p st : ℕ × ℕ) (σr : Heap) (ya : ℕ),
      convCallH σ ks wa ba xa p st = some (σr, ya) →
      σ.size ≤ ya ∧ ∀ a, a < σ.size → σr.mem a = σ.mem a) := by
  constructor
  · intro σ xa ka σr ya h
    obtain ⟨h1, h2⟩ := corr2dH_frame σ xa ka σr ya h
    exact ⟨le_of_eq h1.symm, h2⟩
  · intro σ ks wa ba xa p st σr ya h
    exact convCallH_frame σ ks wa ba xa p st σr ya h

/-! ### Witnesses -/

/-- Witness for C1 at a concrete input: a 1 by 1 Conv with weight 2 and
bias 3 on the input holding 5 outputs 2 * 5 + 3 = 13. -/
theorem claim_C1_witness : (Conv.call c1w x1w).map (fun t => t.data 0 0) = some 13 := by
  have hs : (Conv.call c1w x1w).map Tensor.rows = some 1 := by rfl
  have hcs : (Conv.call c1w x1w).map Tensor.cols = some 1 := by rfl
  cases h : Conv.call c1w x1w with
  | none =>
    rw [h] at hs
    simp at hs
  | some y =>
    rw [h] at hs hcs
    simp only [Option.map_some'] at hs hcs
    injection hs with hs
    injection hcs with hcs
    have hd := claim_C1 c1w x1w y h 0 0 (by omega) (by omega)
    show some (y.data 0 0) = some 13
    rw [hd]
    norm_num [c1w, x1w, Finset.sum_range_one]

/-- Witness for C2 at concrete inputs: the 8x8 and 5x5 shape instances and
the general formula on c1w. -/
theorem claim_C2_witness :
    ((Conv.call ⟨(3, 3), (fun _ _ => 0), 0, (1, 1), (1, 1)⟩ x8w).map
      fun t => (t.rows, t.cols)) = some (8, 8) ∧
    ((Conv.call ⟨(2, 2), (fun _ _ => 0), 0, (0, 0), (3, 2)⟩ x5w).map
      fun t => (t.rows, t.cols)) = some (2, 2) ∧
    ((Conv.call c1w x1w).map fun t => (t.rows, t.cols)) = some (1, 1) :=
  ⟨claim_C2.2.1 x8w (fun _ _ => 0) 0 rfl rfl,
    claim_C2.2.2 x5w (fun _ _ => 0) 0 rfl rfl,
    claim_C2.1 c1w x1w (le_refl 1) (le_refl 1) (by decide) (by decide)⟩

/-- Witness for C3 at a concrete input: a 1 by 1 kernel on a 2 by 2 input
gives a 2 by 2 output. -/
theorem claim_C3_witness :
    ((corr2d X3w K3w).map fun t => (t.rows, t.cols)) = some (2, 2) :=
  (claim_C3 X3w K3w (by decide) (by decide)).1

/-- Witness for C4 at concrete inputs: both the corr2d comparison and one
sweep configuration succeed, with the expected output height 23. -/
theorem claim_C4_witness :
    (corr2d x23w K23w).map Tensor.rows = some 23 ∧
    (Conv.call ⟨(5, 3), (fun _ _ => 1), 0, (2, 1), (1, 3)⟩ x23w).map Tensor.rows =
      some 23 := by
  constructor
  · obtain ⟨hs, hy⟩ := claim_C4.1 x23w K23w (by decide) (by decide)
    cases h : corr2d x23w K23w with
    | none =>
      rw [h] at hs
      exact absurd hs (by decide)
    | some y =>
      obtain ⟨h1, _, _⟩ := hy y h
      show some y.rows = some 23
      rw [h1]
      rfl
  · obtain ⟨hs, hy⟩ := claim_C4.2 x23w rfl rfl (5, 3) (2, 1) (1, 3)
      (by decide) (by decide) (by decide) (fun _ _ => 1) 0
    cases h : Conv.call ⟨(5, 3), (fun _ _ => 1), 0, (2, 1), (1, 3)⟩ x23w with
    | none =>
      rw [h] at hs
      exact absurd hs (by decide)
    | some y =>
      obtain ⟨h1, _, _⟩ := hy y h
      show some y.rows = some 23
      rw [h1]
      rfl

/-- Witness for C5 (amended) at the concrete boundary input: the call on
c5w and x5e returns an empty tensor of shape (0, 2). -/
theorem claim_C5_witness :
    (Conv.call c5w x5e).map Tensor.rows = some 0 ∧
    (Conv.call c5w x5e).map Tensor.cols = some 2 := by
  cases h : Conv.call c5w x5e with
  | none => exact absurd ((claim_C5_amended c5w x5e).1.mp h) (by decide)
  | some y =>
    obtain ⟨hr, hc⟩ := (claim_C5_amended c5w x5e).2 y h
    exact ⟨by show some y.rows = some 0; rw [hr]; rfl,
      by show some y.cols = some 2; rw [hc]; rfl⟩

/-- Witness for C6 (amended) at the concrete boundary input: corr2d on the
2 by 2 input with the 3 by 2 kernel returns an empty tensor of shape (0, 1). -/
theorem claim_C6_witness :
    (corr2d X6e K6e).map Tensor.rows = some 0 ∧
    (corr2d X6e K6e).map Tensor.cols = some 1 := by
  cases h : corr2d X6e K6e with
  | none => exact absurd ((claim_C6_amended X6e K6e).1.mp h) (by decide)
  | some y =>
    obtain ⟨hr, hc⟩ := (claim_C6_amended X6e K6e).2 y h
    exact ⟨by show some y.rows = some 0; rw [hr]; rfl,
      by show some y.cols = some 1; rw [hc]; rfl⟩

/-- Witness for C7 at a concrete input. -/
theorem claim_C7_witness :
    Conv.call ⟨(K3w.rows, K3w.cols), K3w.data, 0, (0, 0), (1, 1)⟩ X3w = corr2d X3w K3w :=
  claim_C7 X3w K3w (by decide) (by decide)

/-- Witness for C8 at a concrete heap: both heap calls succeed, allocate
their outputs at fresh addresses and leave the live cell at address 0 (the
2 by 2 input tensor) unchanged. -/
theorem claim_C8_witness :
    hp0.size ≤ hr0.2 ∧ (hr0.1.mem 0).rows = 2 ∧
    hp0.size ≤ hc0.2 ∧ (hc0.1.mem 0).rows = 2 := by
  have h1 : corr2dH hp0 0 1 = some (hr0.1, hr0.2) := rfl
  have h2 : convCallH hp0 (1, 1) 1 1 0 (0, 0) (1, 1) = some (hc0.1, hc0.2) := rfl
  obtain ⟨ha, hb⟩ := claim_C8.1 hp0 0 1 hr0.1 hr0.2 h1
  obtain ⟨hc, hd⟩ := claim_C8.2 hp0 (1, 1) 1 1 0 (0, 0) (1, 1) hc0.1 hc0.2 h2
  refine ⟨ha, ?_, hc, ?_⟩
  · rw [hb 0 (by decide)]
    rfl
  · rw [hd 0 (by decide)]
    rfl

/-- Witness for C9 at concrete equal inputs and parameters. -/
theorem claim_C9_witness :
    corr2d X3w K3w = corr2d X3w K3w ∧ Conv.call c1w x1w = Conv.call c1w x1w :=
  ⟨claim_C9.1 X3w X3w K3w K3w rfl rfl,
    claim_C9.2 c1w c1w x1w x1w rfl rfl rfl rfl rfl rfl⟩

end D2L
